import Mathlib

/-!
Verification of the endpoint-discovery reconciliation core of `tonic-lb-k8s`
(`src/k8s.rs`): the address extractor `extract_ready_endpoints` and the
reconciliation step `process_event`, together with the event-sequence
behaviour of the discovery loop.

The Rust `HashSet<SocketAddr>` known set is modelled as a `Finset SocketAddr`;
the `HashSet` returned by extraction is modelled as a duplicate-free list (the
insertion-ordered contents of the set), so that the action batch produced by
iterating over it stays observable.  Mutation of `known` becomes explicit
state passing: `process_event` returns the action list together with the
updated known set.
-/

/-- An IP address: an IPv4 dotted quad or an IPv6 address of eight 16-bit
groups.  Stands for `std::net::IpAddr`. -/
inductive IpAddr
  | v4 (a b c d : Nat)
  | v6 (a b c d e f g h : Nat)
  deriving DecidableEq, Repr

/-- A socket address: IP plus resolved port.  Stands for `std::net::SocketAddr`. -/
structure SocketAddr where
  ip : IpAddr
  port : Nat
  deriving DecidableEq, Repr

/-- Splits a character list on a separator character; mirrors
`str::split(sep)` (so `"" ↦ [""]` and separators at the ends produce empty
pieces). -/
def splitOnChar (sep : Char) : List Char → List (List Char)
  | [] => [[]]
  | c :: rest =>
      let r := splitOnChar sep rest
      if c = sep then [] :: r
      else
        match r with
        | piece :: pieces => (c :: piece) :: pieces
        | [] => [[c]]

/-- The value of a decimal digit character, if it is one. -/
def digitVal (c : Char) : Option Nat :=
  if 48 ≤ c.toNat ∧ c.toNat ≤ 57 then some (c.toNat - 48) else none

/-- Modelled from the spec: one octet of an IPv4 dotted-quad literal, as the
Rust standard library parses it (that parser is not part of this repository):
decimal digits only, no leading zero, value at most 255. -/
def parseOctet (cs : List Char) : Option Nat :=
  match cs.mapM digitVal with
  | none => none
  | some [] => none
  | some (d :: ds) =>
      if d = 0 ∧ ds ≠ [] then none
      else
        let n := (d :: ds).foldl (fun acc d => acc * 10 + d) 0
        if n ≤ 255 then some n else none

/-- Modelled from the spec: `parse as an IPv4 literal` (Rust
`Ipv4Addr::from_str`, external to this repository): four octets separated by
dots. -/
def parseIpv4 (s : String) : Option IpAddr :=
  match (splitOnChar '.' s.toList).mapM parseOctet with
  | some [a, b, c, d] => some (IpAddr.v4 a b c d)
  | _ => none

/-- The value of a hexadecimal digit character, if it is one. -/
def hexDigitVal (c : Char) : Option Nat :=
  if 48 ≤ c.toNat ∧ c.toNat ≤ 57 then some (c.toNat - 48)
  else if 97 ≤ c.toNat ∧ c.toNat ≤ 102 then some (c.toNat - 87)
  else if 65 ≤ c.toNat ∧ c.toNat ≤ 70 then some (c.toNat - 55)
  else none

/-- One 16-bit group of an IPv6 literal: one to four hexadecimal digits. -/
def parseHexGroup (cs : List Char) : Option Nat :=
  if cs = [] ∨ 4 < cs.length then none
  else (cs.mapM hexDigitVal).map (fun ds => ds.foldl (fun acc d => acc * 16 + d) 0)

/-- Splits a character list at the first occurrence of a double colon, when
there is one. -/
def splitColonColon : List Char → Option (List Char × List Char)
  | ':' :: ':' :: rest => some ([], rest)
  | c :: rest => (splitColonColon rest).map (fun p => (c :: p.1, p.2))
  | [] => none

/-- The colon-separated hex groups of a piece of an IPv6 literal; an empty
piece (one side of a `::`) holds no groups. -/
def groupsOrEmpty (cs : List Char) : Option (List Nat) :=
  if cs = [] then some [] else (splitOnChar ':' cs).mapM parseHexGroup

/-- Packs exactly eight groups into an IPv6 address. -/
def mkV6 : List Nat → Option IpAddr
  | [a, b, c, d, e, f, g, h] => some (IpAddr.v6 a b c d e f g h)
  | _ => none

/-- Modelled from the spec: `parse as an IPv6 literal` (Rust
`Ipv6Addr::from_str`, external to this repository), in its hex-group form:
eight colon-separated groups, or fewer with a single `::` standing for the
missing zero groups. -/
def parseIpv6 (s : String) : Option IpAddr :=
  let cs := s.toList
  match splitColonColon cs with
  | none => (groupsOrEmpty cs).bind mkV6
  | some (l, r) =>
      match groupsOrEmpty l, groupsOrEmpty r with
      | some ls, some rs =>
          if ls.length + rs.length ≤ 7 then
            mkV6 (ls ++ List.replicate (8 - ls.length - rs.length) 0 ++ rs)
          else none
      | _, _ => none

/-- Modelled from the spec: `parse as an IPv4 or IPv6 literal; unparsable
strings are dropped silently` — `str::parse::<IpAddr>` of the Rust standard
library, which is not part of this repository: try IPv4, then IPv6. -/
def parseIpAddr (s : String) : Option IpAddr :=
  match parseIpv4 s with
  | some ip => some ip
  | none => parseIpv6 s

/-- `EndpointConditions` of the `EndpointSlice` API: only the `ready` field is
ever read by this program (`serving`/`terminating` are not modelled). -/
structure EndpointConditions where
  ready : Option Bool
  deriving DecidableEq, Repr

/-- One endpoint entry of an `EndpointSlice`: its address strings and optional
conditions (the remaining API fields are never read by this program). -/
structure Endpoint where
  addresses : List String
  conditions : Option EndpointConditions
  deriving DecidableEq, Repr

/-- One entry of an `EndpointSlice` port table: optional name and optional
`i32` port number (the remaining API fields are never read by this program). -/
structure EndpointPort where
  name : Option String
  port : Option Int
  deriving DecidableEq, Repr

/-- An `EndpointSlice` revision: endpoint entries and optional port table.
`name` is the object's `metadata.name`; the program itself never reads it, but
it is the revision-object identity the spec's invariant speaks about. -/
structure EndpointSlice where
  name : String
  endpoints : List Endpoint
  ports : Option (List EndpointPort)
  deriving DecidableEq, Repr

/-- Port specification for the gRPC service (`Port` in `k8s.rs`); the numeric
variant is a `u16`. -/
inductive Port
  | Number (n : Nat)
  | Name (s : String)
  deriving DecidableEq, Repr

/-- The port-resolution block at the top of `extract_ready_endpoints`: a
numeric specifier resolves to itself; a named one scans the slice's port
table for the first entry with that name and keeps its number when
`u16::try_from` accepts it. -/
def resolve_port (slice : EndpointSlice) (port : Port) : Option Nat :=
  match port with
  | Port.Number n => some n
  | Port.Name nm =>
      slice.ports.bind fun ports =>
        (ports.find? fun p => decide (p.name = some nm)).bind fun p =>
          p.port.bind fun pn =>
            if 0 ≤ pn ∧ pn ≤ 65535 then some pn.toNat else none

/-- The readiness test of `extract_ready_endpoints`:
`ep.conditions.as_ref().and_then(|c| c.ready).unwrap_or(true)`. -/
def is_ready (ep : Endpoint) : Bool :=
  (ep.conditions.bind EndpointConditions.ready).getD true

/-- `extract_ready_endpoints` of `k8s.rs`: resolve the port (empty set when
that fails), then over every ready endpoint entry parse each address string,
dropping unparsable ones, and collect the socket addresses into a set —
modelled as a duplicate-free list. -/
def extract_ready_endpoints (slice : EndpointSlice) (port : Port) : List SocketAddr :=
  match resolve_port slice port with
  | none => []
  | some pn =>
      ((((slice.endpoints.filter is_ready).flatMap Endpoint.addresses).filterMap
          parseIpAddr).dedup).map fun ip => { ip := ip, port := pn }

/-- A watcher event (`kube::runtime::watcher::Event<EndpointSlice>`). -/
inductive Event
  | Apply (slice : EndpointSlice)
  | InitApply (slice : EndpointSlice)
  | Delete (slice : EndpointSlice)
  | Init
  | InitDone
  deriving DecidableEq, Repr

/-- An endpoint change action (`EndpointAction` in `k8s.rs`). -/
inductive EndpointAction
  | Insert (addr : SocketAddr)
  | Remove (addr : SocketAddr)
  deriving DecidableEq, Repr

/-- The address an action carries. -/
def action_addr : EndpointAction → SocketAddr
  | EndpointAction.Insert a => a
  | EndpointAction.Remove a => a

/-- The Apply-branch loop of `process_event`: for each extracted address not
yet known, add it to the known set and push an `Insert` action. -/
def apply_loop : List SocketAddr → Finset SocketAddr → List EndpointAction × Finset SocketAddr
  | [], known => ([], known)
  | a :: rest, known =>
      if a ∈ known then apply_loop rest known
      else
        (EndpointAction.Insert a :: (apply_loop rest (insert a known)).1,
          (apply_loop rest (insert a known)).2)

/-- The Delete-branch loop of `process_event`: for each extracted address that
is known, remove it from the known set and push a `Remove` action. -/
def delete_loop : List SocketAddr → Finset SocketAddr → List EndpointAction × Finset SocketAddr
  | [], known => ([], known)
  | a :: rest, known =>
      if a ∈ known then
        (EndpointAction.Remove a :: (delete_loop rest (known.erase a)).1,
          (delete_loop rest (known.erase a)).2)
      else delete_loop rest known

/-- `process_event` of `k8s.rs`, with the `&mut known` parameter made
explicit: returns the action batch and the updated known set. -/
def process_event (event : Event) (known : Finset SocketAddr) (port : Port) :
    List EndpointAction × Finset SocketAddr :=
  match event with
  | Event.Apply slice => apply_loop (extract_ready_endpoints slice port) known
  | Event.InitApply slice => apply_loop (extract_ready_endpoints slice port) known
  | Event.Delete slice => delete_loop (extract_ready_endpoints slice port) known
  | Event.Init => ([], known)
  | Event.InitDone => ([], known)

/-- The discovery loop's per-event processing folded over a whole event
sequence: all emitted actions in order, and the final known set. -/
def process_trace (evs : List Event) (port : Port) (known : Finset SocketAddr) :
    List EndpointAction × Finset SocketAddr :=
  match evs with
  | [] => ([], known)
  | e :: rest =>
      ((process_event e known port).1 ++
          (process_trace rest port (process_event e known port).2).1,
        (process_trace rest port (process_event e known port).2).2)

/-- The revision-object an event is about, when it carries one. -/
def event_object : Event → Option String
  | Event.Apply s => some s.name
  | Event.InitApply s => some s.name
  | Event.Delete s => some s.name
  | Event.Init => none
  | Event.InitDone => none

/-- The most recent event mentioning a given revision-object. -/
def last_event_for (evs : List Event) (nm : String) : Option Event :=
  (evs.filter fun e => decide (event_object e = some nm)).getLast?

/-- All revision-objects observed in an event sequence. -/
def observed_objects (evs : List Event) : Finset String :=
  (evs.filterMap event_object).toFinset

/-- Spec-side definition, following the claimed invariant's words: the
addresses contributed by one revision-object — the extraction of its most
recent revision, or nothing when that object was most recently deleted. -/
def claimed_contribution (evs : List Event) (port : Port) (nm : String) :
    Finset SocketAddr :=
  match last_event_for evs nm with
  | some (Event.Apply s) => (extract_ready_endpoints s port).toFinset
  | some (Event.InitApply s) => (extract_ready_endpoints s port).toFinset
  | _ => ∅

/-- Spec-side definition, following the claimed invariant's words: the union
of the ready addresses extracted from the most recent non-deleted revision of
every revision-object observed so far. -/
def claimed_known (evs : List Event) (port : Port) : Finset SocketAddr :=
  (observed_objects evs).biUnion (claimed_contribution evs port)

/-- One step of the per-address liveness fold: an Apply-type event whose
extraction mentions the address makes it live, a Delete whose extraction
mentions it makes it dead, every other event leaves it as it was. -/
def live_step (port : Port) (a : SocketAddr) (b : Bool) : Event → Bool
  | Event.Apply s => if a ∈ extract_ready_endpoints s port then true else b
  | Event.InitApply s => if a ∈ extract_ready_endpoints s port then true else b
  | Event.Delete s => if a ∈ extract_ready_endpoints s port then false else b
  | Event.Init => b
  | Event.InitDone => b

/-- Whether an address is live after the events: the most recent event whose
extraction mentions the address is an Apply-type event.  `b` is the liveness
carried in from before the sequence. -/
def live_from (evs : List Event) (port : Port) (a : SocketAddr) (b : Bool) : Bool :=
  evs.foldl (live_step port a) b

/-- Whether an address is live after the events, starting from an empty known
set: some event's extraction mentions it and the last such event is
Apply-type. -/
def live_after (evs : List Event) (port : Port) (a : SocketAddr) : Bool :=
  live_from evs port a false

theorem apply_loop_snd (l : List SocketAddr) (K : Finset SocketAddr) :
    (apply_loop l K).2 = K ∪ l.toFinset := by
  induction l generalizing K with
  | nil => simp [apply_loop]
  | cons a t ih =>
    by_cases h : a ∈ K
    · simp only [apply_loop, if_pos h]
      rw [ih, List.toFinset_cons, Finset.union_insert,
        Finset.insert_eq_self.mpr (Finset.mem_union_left _ h)]
    · simp only [apply_loop, if_neg h]
      rw [ih, List.toFinset_cons, Finset.insert_union, Finset.union_insert]

theorem apply_loop_fst (l : List SocketAddr) (K : Finset SocketAddr) (hl : l.Nodup) :
    (apply_loop l K).1 =
      (l.filter fun a => decide (a ∉ K)).map EndpointAction.Insert := by
  induction l generalizing K with
  | nil => simp [apply_loop]
  | cons a t ih =>
    have ha : a ∉ t := (List.nodup_cons.mp hl).1
    have ht : t.Nodup := (List.nodup_cons.mp hl).2
    by_cases h : a ∈ K
    · simp only [apply_loop, if_pos h, List.filter_cons]
      rw [ih K ht]
      simp [h]
    · simp only [apply_loop, if_neg h, List.filter_cons]
      rw [ih (insert a K) ht]
      have hfilter : (t.filter fun x => decide (x ∉ insert a K)) =
          t.filter fun x => decide (x ∉ K) := by
        apply List.filter_congr
        intro x hx
        have hxa : x ≠ a := fun e => ha (e ▸ hx)
        simp [Finset.mem_insert, hxa]
      rw [hfilter]
      simp [h]

theorem delete_loop_snd (l : List SocketAddr) (K : Finset SocketAddr) :
    (delete_loop l K).2 = K \ l.toFinset := by
  induction l generalizing K with
  | nil => simp [delete_loop]
  | cons a t ih =>
    by_cases h : a ∈ K
    · simp only [delete_loop, if_pos h]
      rw [ih]
      ext x
      simp only [Finset.mem_sdiff, Finset.mem_erase, List.toFinset_cons,
        Finset.mem_insert, List.mem_toFinset, not_or]
      constructor
      · rintro ⟨⟨hxa, hxK⟩, hxt⟩
        exact ⟨hxK, hxa, hxt⟩
      · rintro ⟨hxK, hxa, hxt⟩
        exact ⟨⟨hxa, hxK⟩, hxt⟩
    · simp only [delete_loop, if_neg h]
      rw [ih]
      ext x
      simp only [Finset.mem_sdiff, List.toFinset_cons, Finset.mem_insert,
        List.mem_toFinset, not_or]
      constructor
      · rintro ⟨hxK, hxt⟩
        exact ⟨hxK, fun e => h (e ▸ hxK), hxt⟩
      · rintro ⟨hxK, _, hxt⟩
        exact ⟨hxK, hxt⟩

theorem delete_loop_fst (l : List SocketAddr) (K : Finset SocketAddr) (hl : l.Nodup) :
    (delete_loop l K).1 =
      (l.filter fun a => decide (a ∈ K)).map EndpointAction.Remove := by
  induction l generalizing K with
  | nil => simp [delete_loop]
  | cons a t ih =>
    have ha : a ∉ t := (List.nodup_cons.mp hl).1
    have ht : t.Nodup := (List.nodup_cons.mp hl).2
    by_cases h : a ∈ K
    · simp only [delete_loop, if_pos h, List.filter_cons]
      rw [ih (K.erase a) ht]
      have hfilter : (t.filter fun x => decide (x ∈ K.erase a)) =
          t.filter fun x => decide (x ∈ K) := by
        apply List.filter_congr
        intro x hx
        have hxa : x ≠ a := fun e => ha (e ▸ hx)
        simp [Finset.mem_erase, hxa]
      rw [hfilter]
      simp [h]
    · simp only [delete_loop, if_neg h, List.filter_cons]
      rw [ih K ht]
      simp [h]

theorem extract_ready_endpoints_nodup (slice : EndpointSlice) (port : Port) :
    (extract_ready_endpoints slice port).Nodup := by
  unfold extract_ready_endpoints
  cases hr : resolve_port slice port with
  | none => simp
  | some pn =>
    refine List.Nodup.map ?_ (List.nodup_dedup _)
    intro i j hij
    simpa using congrArg SocketAddr.ip hij

theorem extract_port_eq (slice : EndpointSlice) (port : Port) (pn : Nat)
    (hpn : resolve_port slice port = some pn) (a : SocketAddr)
    (ha : a ∈ extract_ready_endpoints slice port) : a.port = pn := by
  unfold extract_ready_endpoints at ha
  rw [hpn] at ha
  rcases List.mem_map.mp ha with ⟨ip, _, rfl⟩
  rfl

theorem process_event_apply_fst (slice : EndpointSlice) (K : Finset SocketAddr) (port : Port) :
    (process_event (Event.Apply slice) K port).1 =
      ((extract_ready_endpoints slice port).filter fun a => decide (a ∉ K)).map
        EndpointAction.Insert :=
  apply_loop_fst _ K (extract_ready_endpoints_nodup slice port)

theorem process_event_apply_snd (slice : EndpointSlice) (K : Finset SocketAddr) (port : Port) :
    (process_event (Event.Apply slice) K port).2 =
      K ∪ (extract_ready_endpoints slice port).toFinset :=
  apply_loop_snd _ K

theorem process_event_init_apply (slice : EndpointSlice) (K : Finset SocketAddr) (port : Port) :
    process_event (Event.InitApply slice) K port = process_event (Event.Apply slice) K port :=
  rfl

theorem process_event_delete_fst (slice : EndpointSlice) (K : Finset SocketAddr) (port : Port) :
    (process_event (Event.Delete slice) K port).1 =
      ((extract_ready_endpoints slice port).filter fun a => decide (a ∈ K)).map
        EndpointAction.Remove :=
  delete_loop_fst _ K (extract_ready_endpoints_nodup slice port)

theorem process_event_delete_snd (slice : EndpointSlice) (K : Finset SocketAddr) (port : Port) :
    (process_event (Event.Delete slice) K port).2 =
      K \ (extract_ready_endpoints slice port).toFinset :=
  delete_loop_snd _ K

theorem insert_injective : Function.Injective EndpointAction.Insert := by
  intro x y hxy
  injection hxy

theorem remove_injective : Function.Injective EndpointAction.Remove := by
  intro x y hxy
  injection hxy

/-- C2: an Apply-type event (Apply or InitApply) on revision `slice` with
known set `K` emits exactly one Insert per address in `extract(slice, port) \ K`
and nothing else, leaves the known set at `K ∪ extract(slice, port)`, never
emits an Insert for an already-known address, and never removes an address
from the known set. -/
theorem apply_event_actions_and_state (slice : EndpointSlice) (port : Port)
    (K : Finset SocketAddr) :
    process_event (Event.InitApply slice) K port = process_event (Event.Apply slice) K port ∧
    (∀ a : SocketAddr,
      (process_event (Event.Apply slice) K port).1.count (EndpointAction.Insert a) =
        if a ∈ (extract_ready_endpoints slice port).toFinset \ K then 1 else 0) ∧
    (∀ act ∈ (process_event (Event.Apply slice) K port).1,
      ∃ a, act = EndpointAction.Insert a ∧
        a ∈ (extract_ready_endpoints slice port).toFinset \ K) ∧
    (process_event (Event.Apply slice) K port).2 =
      K ∪ (extract_ready_endpoints slice port).toFinset ∧
    (∀ a ∈ K, EndpointAction.Insert a ∉ (process_event (Event.Apply slice) K port).1) ∧
    K ⊆ (process_event (Event.Apply slice) K port).2 := by
  have hnd : (extract_ready_endpoints slice port).Nodup :=
    extract_ready_endpoints_nodup slice port
  refine ⟨rfl, ?_, ?_, process_event_apply_snd slice K port, ?_, ?_⟩
  · intro a
    rw [process_event_apply_fst,
      List.count_map_of_injective _ _ insert_injective a]
    by_cases hmem : a ∈ (extract_ready_endpoints slice port).toFinset \ K
    · rw [if_pos hmem]
      rcases Finset.mem_sdiff.mp hmem with ⟨h1, h2⟩
      refine List.count_eq_one_of_mem (hnd.filter _) ?_
      exact List.mem_filter.mpr ⟨List.mem_toFinset.mp h1, by simpa using h2⟩
    · rw [if_neg hmem]
      apply List.count_eq_zero_of_not_mem
      intro hmem2
      rcases List.mem_filter.mp hmem2 with ⟨h1, h2⟩
      exact hmem (Finset.mem_sdiff.mpr ⟨List.mem_toFinset.mpr h1, by simpa using h2⟩)
  · intro act hact
    rw [process_event_apply_fst] at hact
    rcases List.mem_map.mp hact with ⟨a, hmem, rfl⟩
    rcases List.mem_filter.mp hmem with ⟨h1, h2⟩
    exact ⟨a, rfl, Finset.mem_sdiff.mpr ⟨List.mem_toFinset.mpr h1, by simpa using h2⟩⟩
  · intro a haK hin
    rw [process_event_apply_fst] at hin
    rcases List.mem_map.mp hin with ⟨b, hmem, hb⟩
    have hba : b = a := insert_injective hb
    rcases List.mem_filter.mp hmem with ⟨_, h2⟩
    have hbK : b ∉ K := by simpa using h2
    exact hbK (hba.symm ▸ haK)
  · rw [process_event_apply_snd]
    exact Finset.subset_union_left

/-- C3: a Delete event on revision `slice` with known set `K` emits exactly
one Remove per address in `extract(slice, port) ∩ K` and nothing else, leaves
the known set at `K \ extract(slice, port)`, and extracted addresses not in
`K` produce no action. -/
theorem delete_event_actions_and_state (slice : EndpointSlice) (port : Port)
    (K : Finset SocketAddr) :
    (∀ a : SocketAddr,
      (process_event (Event.Delete slice) K port).1.count (EndpointAction.Remove a) =
        if a ∈ (extract_ready_endpoints slice port).toFinset ∩ K then 1 else 0) ∧
    (∀ act ∈ (process_event (Event.Delete slice) K port).1,
      ∃ a, act = EndpointAction.Remove a ∧
        a ∈ (extract_ready_endpoints slice port).toFinset ∩ K) ∧
    (process_event (Event.Delete slice) K port).2 =
      K \ (extract_ready_endpoints slice port).toFinset ∧
    (∀ a ∈ (extract_ready_endpoints slice port).toFinset, a ∉ K →
      ∀ act ∈ (process_event (Event.Delete slice) K port).1, action_addr act ≠ a) := by
  have hnd : (extract_ready_endpoints slice port).Nodup :=
    extract_ready_endpoints_nodup slice port
  refine ⟨?_, ?_, process_event_delete_snd slice K port, ?_⟩
  · intro a
    rw [process_event_delete_fst,
      List.count_map_of_injective _ _ remove_injective a]
    by_cases hmem : a ∈ (extract_ready_endpoints slice port).toFinset ∩ K
    · rw [if_pos hmem]
      rcases Finset.mem_inter.mp hmem with ⟨h1, h2⟩
      refine List.count_eq_one_of_mem (hnd.filter _) ?_
      exact List.mem_filter.mpr ⟨List.mem_toFinset.mp h1, by simpa using h2⟩
    · rw [if_neg hmem]
      apply List.count_eq_zero_of_not_mem
      intro hmem2
      rcases List.mem_filter.mp hmem2 with ⟨h1, h2⟩
      exact hmem (Finset.mem_inter.mpr ⟨List.mem_toFinset.mpr h1, by simpa using h2⟩)
  · intro act hact
    rw [process_event_delete_fst] at hact
    rcases List.mem_map.mp hact with ⟨a, hmem, rfl⟩
    rcases List.mem_filter.mp hmem with ⟨h1, h2⟩
    exact ⟨a, rfl, Finset.mem_inter.mpr ⟨List.mem_toFinset.mpr h1, by simpa using h2⟩⟩
  · intro a _ haK act hact hacta
    rw [process_event_delete_fst] at hact
    rcases List.mem_map.mp hact with ⟨b, hmem, rfl⟩
    rcases List.mem_filter.mp hmem with ⟨_, h2⟩
    have hba : b = a := hacta
    have hbK : b ∈ K := by simpa using h2
    exact haK (hba ▸ hbK)

/-- C4: replaying the identical Apply event right after it has been processed
yields no actions and leaves the known set unchanged. -/
theorem apply_twice_idempotent (slice : EndpointSlice) (port : Port)
    (K : Finset SocketAddr) :
    (process_event (Event.Apply slice)
        (process_event (Event.Apply slice) K port).2 port).1 = [] ∧
    (process_event (Event.Apply slice)
        (process_event (Event.Apply slice) K port).2 port).2 =
      (process_event (Event.Apply slice) K port).2 := by
  constructor
  · rw [process_event_apply_fst]
    have hnil : ((extract_ready_endpoints slice port).filter fun a =>
        decide (a ∉ (process_event (Event.Apply slice) K port).2)) = [] := by
      rw [List.filter_eq_nil_iff]
      intro a ha
      rw [process_event_apply_snd]
      simp [List.mem_toFinset, ha]
    rw [hnil, List.map_nil]
  · rw [process_event_apply_snd, process_event_apply_snd, Finset.union_assoc,
      Finset.union_self]

/-- C8: the stream-initialization markers Init and InitDone produce no
actions and leave the known set exactly unchanged. -/
theorem lifecycle_events_noop (K : Finset SocketAddr) (port : Port) :
    process_event Event.Init K port = ([], K) ∧
    process_event Event.InitDone K port = ([], K) :=
  ⟨rfl, rfl⟩

theorem process_event_port_invariant (e : Event) (K : Finset SocketAddr) (n : Nat)
    (hK : ∀ a ∈ K, a.port = n) :
    (∀ act ∈ (process_event e K (Port.Number n)).1, (action_addr act).port = n) ∧
    (∀ a ∈ (process_event e K (Port.Number n)).2, a.port = n) := by
  have hextract : ∀ s : EndpointSlice, ∀ a ∈ extract_ready_endpoints s (Port.Number n),
      a.port = n := fun s a ha => extract_port_eq s (Port.Number n) n rfl a ha
  cases e with
  | Apply s =>
    constructor
    · intro act hact
      rw [process_event_apply_fst] at hact
      rcases List.mem_map.mp hact with ⟨a, hmem, rfl⟩
      exact hextract s a (List.mem_filter.mp hmem).1
    · intro a ha
      rw [process_event_apply_snd] at ha
      rcases Finset.mem_union.mp ha with h | h
      · exact hK a h
      · exact hextract s a (List.mem_toFinset.mp h)
  | InitApply s =>
    rw [process_event_init_apply]
    constructor
    · intro act hact
      rw [process_event_apply_fst] at hact
      rcases List.mem_map.mp hact with ⟨a, hmem, rfl⟩
      exact hextract s a (List.mem_filter.mp hmem).1
    · intro a ha
      rw [process_event_apply_snd] at ha
      rcases Finset.mem_union.mp ha with h | h
      · exact hK a h
      · exact hextract s a (List.mem_toFinset.mp h)
  | Delete s =>
    constructor
    · intro act hact
      rw [process_event_delete_fst] at hact
      rcases List.mem_map.mp hact with ⟨a, hmem, rfl⟩
      exact hextract s a (List.mem_filter.mp hmem).1
    · intro a ha
      rw [process_event_delete_snd] at ha
      exact hK a (Finset.mem_sdiff.mp ha).1
  | Init =>
    exact ⟨fun act hact => absurd hact (List.not_mem_nil act), hK⟩
  | InitDone =>
    exact ⟨fun act hact => absurd hact (List.not_mem_nil act), hK⟩

theorem process_trace_port_invariant (evs : List Event) (K : Finset SocketAddr) (n : Nat)
    (hK : ∀ a ∈ K, a.port = n) :
    (∀ act ∈ (process_trace evs (Port.Number n) K).1, (action_addr act).port = n) ∧
    (∀ a ∈ (process_trace evs (Port.Number n) K).2, a.port = n) := by
  induction evs generalizing K with
  | nil =>
    exact ⟨fun act hact => absurd hact (List.not_mem_nil act), hK⟩
  | cons e t ih =>
    have hstep := process_event_port_invariant e K n hK
    have hrest := ih (process_event e K (Port.Number n)).2 hstep.2
    constructor
    · intro act hact
      simp only [process_trace] at hact
      rcases List.mem_append.mp hact with h | h
      · exact hstep.1 act h
      · exact hrest.1 act h
    · intro a ha
      simp only [process_trace] at ha
      exact hrest.2 a ha

/-- C10: with a numeric port specifier `Number n` and an initially empty known
set, every address carried by an emitted Insert or Remove action (so every
address ever placed in the known set enters through such an Insert) and every
address in the final known set has port component `n`; this holds after every
event sequence, hence is preserved by every call to `process_event`. -/
theorem numeric_port_invariant (evs : List Event) (n : Nat) :
    (∀ act ∈ (process_trace evs (Port.Number n) ∅).1, (action_addr act).port = n) ∧
    (∀ a ∈ (process_trace evs (Port.Number n) ∅).2, a.port = n) :=
  process_trace_port_invariant evs ∅ n (fun a ha => absurd ha (Finset.not_mem_empty a))

theorem process_event_mem_snd (e : Event) (K : Finset SocketAddr) (port : Port)
    (a : SocketAddr) :
    decide (a ∈ (process_event e K port).2) = live_step port a (decide (a ∈ K)) e := by
  cases e with
  | Apply s =>
    rw [process_event_apply_snd]
    by_cases hm : a ∈ extract_ready_endpoints s port
    · simp [live_step, hm, List.mem_toFinset]
    · simp only [live_step, if_neg hm]
      rw [decide_eq_decide]
      simp [List.mem_toFinset, hm]
  | InitApply s =>
    rw [process_event_init_apply, process_event_apply_snd]
    by_cases hm : a ∈ extract_ready_endpoints s port
    · simp [live_step, hm, List.mem_toFinset]
    · simp only [live_step, if_neg hm]
      rw [decide_eq_decide]
      simp [List.mem_toFinset, hm]
  | Delete s =>
    rw [process_event_delete_snd]
    by_cases hm : a ∈ extract_ready_endpoints s port
    · simp [live_step, hm, List.mem_toFinset]
    · simp only [live_step, if_neg hm]
      rw [decide_eq_decide]
      simp [List.mem_toFinset, hm]
  | Init => rfl
  | InitDone => rfl

theorem trace_snd_mem_iff (evs : List Event) (port : Port) (K : Finset SocketAddr)
    (a : SocketAddr) :
    a ∈ (process_trace evs port K).2 ↔ live_from evs port a (decide (a ∈ K)) = true := by
  induction evs generalizing K with
  | nil => simp [process_trace, live_from]
  | cons e t ih =>
    have h1 : (process_trace (e :: t) port K).2 =
        (process_trace t port (process_event e K port).2).2 := rfl
    rw [h1, ih, process_event_mem_snd e K port a]
    simp [live_from]

/-- C1 (amended): starting from an empty known set, after any event sequence
the known set holds exactly the addresses whose most recent mentioning event
(an Apply/InitApply/Delete whose extraction contains the address) is an
Apply-type event.  The bookkeeping is per address, not per revision-object. -/
theorem known_set_eq_live_addresses (evs : List Event) (port : Port) (a : SocketAddr) :
    a ∈ (process_trace evs port ∅).2 ↔ live_after evs port a = true := by
  have hd : decide (a ∈ (∅ : Finset SocketAddr)) = false := by simp
  have := trace_snd_mem_iff evs port ∅ a
  rw [hd] at this
  exact this

/-- C1 counterexample: two revision-objects `x` and `y` both advertise
`10.0.0.1`; deleting `x` removes the address from the known set although the
still-live revision of `y` still advertises it, so the known set differs from
the claimed per-revision-object union. -/
theorem claimed_invariant_counterexample :
    (process_trace
        [Event.Apply
            { name := "x",
              endpoints := [{ addresses := ["10.0.0.1"],
                              conditions := some { ready := some true } }],
              ports := none },
          Event.Apply
            { name := "y",
              endpoints := [{ addresses := ["10.0.0.1"],
                              conditions := some { ready := some true } }],
              ports := none },
          Event.Delete
            { name := "x",
              endpoints := [{ addresses := ["10.0.0.1"],
                              conditions := some { ready := some true } }],
              ports := none }]
        (Port.Number 1) ∅).2 ≠
      claimed_known
        [Event.Apply
            { name := "x",
              endpoints := [{ addresses := ["10.0.0.1"],
                              conditions := some { ready := some true } }],
              ports := none },
          Event.Apply
            { name := "y",
              endpoints := [{ addresses := ["10.0.0.1"],
                              conditions := some { ready := some true } }],
              ports := none },
          Event.Delete
            { name := "x",
              endpoints := [{ addresses := ["10.0.0.1"],
                              conditions := some { ready := some true } }],
              ports := none }]
        (Port.Number 1) := by
  decide

theorem extract_ready_endpoints_congr (s1 s2 : EndpointSlice) (port : Port)
    (hp : s1.ports = s2.ports)
    (he : (s1.endpoints.filter is_ready).flatMap Endpoint.addresses =
      (s2.endpoints.filter is_ready).flatMap Endpoint.addresses) :
    extract_ready_endpoints s1 port = extract_ready_endpoints s2 port := by
  have hres : resolve_port s1 port = resolve_port s2 port := by
    cases port with
    | Number n => rfl
    | Name nm => simp [resolve_port, hp]
  unfold extract_ready_endpoints
  rw [hres]
  cases hr : resolve_port s2 port with
  | none => rfl
  | some pn => rw [he]

/-- C5: an endpoint entry with no readiness flag (either the readiness field
absent, or the whole conditions record absent) contributes exactly as one with
readiness explicitly true: extraction of the two revisions agrees for every
port specifier. -/
theorem readiness_default_equiv (nm : String) (ports : Option (List EndpointPort))
    (pre post : List Endpoint) (addrs : List String) (cond : Option EndpointConditions)
    (port : Port) (h : cond.bind EndpointConditions.ready = none) :
    extract_ready_endpoints
        { name := nm, endpoints := pre ++ { addresses := addrs, conditions := cond } :: post,
          ports := ports } port =
      extract_ready_endpoints
        { name := nm,
          endpoints := pre ++
            { addresses := addrs, conditions := some { ready := some true } } :: post,
          ports := ports } port := by
  apply extract_ready_endpoints_congr
  · rfl
  · show ((pre ++ ({ addresses := addrs, conditions := cond } : Endpoint) :: post).filter
        is_ready).flatMap Endpoint.addresses =
      ((pre ++
          ({ addresses := addrs,
             conditions := some { ready := some true } } : Endpoint) :: post).filter
        is_ready).flatMap Endpoint.addresses
    have h1 : is_ready { addresses := addrs, conditions := cond } = true := by
      simp [is_ready, h]
    have h2 : is_ready { addresses := addrs, conditions := some { ready := some true } } =
        true := by
      simp [is_ready]
    simp [List.filter_append, List.filter_cons, h1, h2]

/-- C5 witness: a concrete entry with the conditions record absent extracts
like one with readiness explicitly true. -/
theorem readiness_default_equiv_witness :
    (none : Option EndpointConditions).bind EndpointConditions.ready = none ∧
    extract_ready_endpoints
        { name := "s", endpoints := [{ addresses := ["10.0.0.1"], conditions := none }],
          ports := none } (Port.Number 80) =
      extract_ready_endpoints
        { name := "s",
          endpoints := [{ addresses := ["10.0.0.1"],
                          conditions := some { ready := some true } }],
          ports := none } (Port.Number 80) :=
  ⟨rfl, readiness_default_equiv "s" none [] [] ["10.0.0.1"] none (Port.Number 80) rfl⟩

/-- C6: a named port specifier whose name is absent from the revision's port
table (or whose port table is absent) makes the revision extract to the empty
address set, not an error; a numeric specifier always resolves to itself. -/
theorem named_port_miss_and_numeric_resolution (slice : EndpointSlice) (s : String)
    (h : ∀ p ∈ slice.ports.getD [], p.name ≠ some s) :
    extract_ready_endpoints slice (Port.Name s) = [] ∧
    ∀ (sl : EndpointSlice) (n : Nat), resolve_port sl (Port.Number n) = some n := by
  refine ⟨?_, fun sl n => rfl⟩
  have hres : resolve_port slice (Port.Name s) = none := by
    unfold resolve_port
    cases hp : slice.ports with
    | none => rfl
    | some ps =>
      have hf : ps.find? (fun p => decide (p.name = some s)) = none := by
        rw [List.find?_eq_none]
        intro p hmem
        simp only [decide_eq_true_eq]
        exact h p (by rw [hp]; simpa using hmem)
      simp [hf]
  unfold extract_ready_endpoints
  rw [hres]

/-- C6 witness: a port table holding only `http` misses the name `grpc`. -/
theorem named_port_miss_witness :
    (∀ p ∈ (({ name := "s", endpoints := [],
               ports := some [{ name := some "http", port := some 8080 }] } :
          EndpointSlice)).ports.getD [], p.name ≠ some "grpc") ∧
    (extract_ready_endpoints
        { name := "s", endpoints := [],
          ports := some [{ name := some "http", port := some 8080 }] }
        (Port.Name "grpc") = [] ∧
      ∀ (sl : EndpointSlice) (n : Nat), resolve_port sl (Port.Number n) = some n) :=
  ⟨by decide, named_port_miss_and_numeric_resolution _ "grpc" (by decide)⟩

/-- C7: a ready endpoint entry holding one unparsable address string and one
valid one extracts exactly the valid address; the unparsable string is dropped
without aborting extraction (extraction is total, it has no error outcome). -/
theorem invalid_address_tolerance (nm : String) (ports : Option (List EndpointPort))
    (bad good : String) (ip : IpAddr) (n : Nat)
    (hbad : parseIpAddr bad = none) (hgood : parseIpAddr good = some ip) :
    extract_ready_endpoints
        { name := nm,
          endpoints := [{ addresses := [bad, good],
                          conditions := some { ready := some true } }],
          ports := ports } (Port.Number n) =
      [{ ip := ip, port := n }] := by
  unfold extract_ready_endpoints
  have hres : resolve_port
      { name := nm,
        endpoints := [{ addresses := [bad, good],
                        conditions := some { ready := some true } }],
        ports := ports } (Port.Number n) = some n := rfl
  rw [hres]
  show (((([({ addresses := [bad, good],
               conditions := some { ready := some true } } : Endpoint)].filter
          is_ready).flatMap
      Endpoint.addresses).filterMap parseIpAddr).dedup).map
      (fun ip => ({ ip := ip, port := n } : SocketAddr)) =
    [({ ip := ip, port := n } : SocketAddr)]
  have h1 : is_ready { addresses := [bad, good], conditions := some { ready := some true } } =
      true := by
    simp [is_ready]
  have h3 : (([({ addresses := [bad, good],
                  conditions := some { ready := some true } } : Endpoint)].filter
          is_ready).flatMap
      Endpoint.addresses) = [bad, good] := by
    simp [h1]
  rw [h3]
  have h2 : [bad, good].filterMap parseIpAddr = [ip] := by
    simp [List.filterMap_cons, hbad, hgood]
  rw [h2]
  simp

/-- C7 witness: `not-an-ip` is dropped, `10.0.0.1` is kept. -/
theorem invalid_address_tolerance_witness :
    parseIpAddr "not-an-ip" = none ∧
    parseIpAddr "10.0.0.1" = some (IpAddr.v4 10 0 0 1) ∧
    extract_ready_endpoints
        { name := "s",
          endpoints := [{ addresses := ["not-an-ip", "10.0.0.1"],
                          conditions := some { ready := some true } }],
          ports := none } (Port.Number 50051) =
      [{ ip := IpAddr.v4 10 0 0 1, port := 50051 }] :=
  ⟨by decide, by decide,
    invalid_address_tolerance "s" none "not-an-ip" "10.0.0.1" (IpAddr.v4 10 0 0 1) 50051
      (by decide) (by decide)⟩

/-- C9: a named specifier whose first matching port-table entry carries no
number, or a number outside the unsigned 16-bit range, makes the revision
extract to the empty address set, exactly as a missing name does — the value
is never truncated or wrapped into a port. -/
theorem named_port_out_of_range (slice : EndpointSlice) (s : String)
    (ps : List EndpointPort) (p : EndpointPort)
    (hports : slice.ports = some ps)
    (hfind : ps.find? (fun q => decide (q.name = some s)) = some p)
    (hbad : ∀ k : Int, p.port = some k → k < 0 ∨ 65535 < k) :
    extract_ready_endpoints slice (Port.Name s) = [] := by
  have hres : resolve_port slice (Port.Name s) = none := by
    show (slice.ports.bind fun ports =>
        (ports.find? fun q => decide (q.name = some s)).bind fun q =>
          q.port.bind fun pn =>
            if 0 ≤ pn ∧ pn ≤ 65535 then some pn.toNat else none) = none
    rw [hports, Option.some_bind, hfind, Option.some_bind]
    cases hp : p.port with
    | none => rfl
    | some k =>
      rcases hbad k hp with hk | hk
      · rw [Option.some_bind, if_neg (by omega)]
      · rw [Option.some_bind, if_neg (by omega)]
  unfold extract_ready_endpoints
  rw [hres]

/-- C9 witness: a table entry named `grpc` with number 70000 resolves to
nothing, so extraction is empty despite a valid ready address. -/
theorem named_port_out_of_range_witness :
    (({ name := "s",
        endpoints := [{ addresses := ["10.0.0.1"],
                        conditions := some { ready := some true } }],
        ports := some [{ name := some "grpc", port := some 70000 }] } :
          EndpointSlice)).ports =
        some [{ name := some "grpc", port := some 70000 }] ∧
    ([({ name := some "grpc", port := some 70000 } : EndpointPort)].find?
        (fun q => decide (q.name = some "grpc"))) =
      some { name := some "grpc", port := some 70000 } ∧
    (∀ k : Int, ({ name := some "grpc", port := some 70000 } : EndpointPort).port = some k →
      k < 0 ∨ 65535 < k) ∧
    extract_ready_endpoints
        { name := "s",
          endpoints := [{ addresses := ["10.0.0.1"],
                          conditions := some { ready := some true } }],
          ports := some [{ name := some "grpc", port := some 70000 }] }
        (Port.Name "grpc") = [] :=
  ⟨rfl, by decide,
    by
      intro k hk
      injection hk with hk
      omega,
    named_port_out_of_range
      { name := "s",
        endpoints := [{ addresses := ["10.0.0.1"],
                        conditions := some { ready := some true } }],
        ports := some [{ name := some "grpc", port := some 70000 }] }
      "grpc" [{ name := some "grpc", port := some 70000 }]
      { name := some "grpc", port := some 70000 } rfl (by decide)
      (by
        intro k hk
        injection hk with hk
        omega)⟩

/-- Sanity checks of the modelled address parser on the literals the
repository's tests use. -/
theorem parseIpAddr_sanity :
    parseIpAddr "10.0.0.1" = some (IpAddr.v4 10 0 0 1) ∧
    parseIpAddr "not-an-ip" = none ∧
    parseIpAddr "::1" = some (IpAddr.v6 0 0 0 0 0 0 0 1) ∧
    parseIpAddr "2001:db8::1" = some (IpAddr.v6 8193 3512 0 0 0 0 0 1) ∧
    parseIpAddr "10.0.0.256" = none ∧
    parseIpAddr "10.0.0.01" = none := by
  refine ⟨?_, ?_, ?_, ?_, ?_, ?_⟩ <;> decide

/-- Sanity check: extraction with a numeric specifier on a two-address ready
entry, matching the repository's `extract_ready_endpoints_with_numeric_port`
test. -/
theorem extract_sanity :
    extract_ready_endpoints
      { name := "s",
        endpoints := [{ addresses := ["10.0.0.1", "10.0.0.2"],
                        conditions := some { ready := some true } }],
        ports := none }
      (Port.Number 50051) =
      [{ ip := IpAddr.v4 10 0 0 1, port := 50051 },
        { ip := IpAddr.v4 10 0 0 2, port := 50051 }] := by
  decide
